import Mathlib

/-!
# Verification of `ringu-rs` (`src/lib.rs`)

Shallow embedding of the `Ringu<const N: usize>` ring buffer: a fixed-capacity
byte queue with two monotonically increasing, wrapping `usize` cursors, a
spin-lock flag, and one-byte `push_one` / `read_one` operations.

Modelling decisions:
* `usize` arithmetic is `Nat` reduced modulo `USIZE_MOD = 2 ^ 64` at every
  wrapping operation (`fetch_add`, `wrapping_sub`); cursor fields hold the
  machine value, which is always `< USIZE_MOD` in reachable states.
* The spin lock is modelled sequentially: operations run one at a time, so
  `lock_me`'s compare-and-swap loop succeeds on the first iteration whenever
  the flag is free, and the spin hook (`spin_func`, a `fn()` with no access to
  the structure) has no observable effect on the state and is not stored.
* `available()`'s `assert!(avail <= N)` is modelled by the separate predicate
  `availOk`; the returned value is the wrapping difference itself.
* Rust byte values (`u8`) are carried as `Nat`: the buffer never computes on
  byte values, it only stores and returns them.
* Array indexing `buf[i & (N - 1)]` is modelled with `List.set` / `List.getD`;
  for power-of-two `N` the masked index is always in bounds.
-/

/-- The modulus of `usize` arithmetic (64-bit platform). -/
def USIZE_MOD : Nat := 2 ^ 64

/-- `usize::wrapping_sub a b` for machine values (`a`, `b` are reduced
modulo `2 ^ 64`). -/
def wrappingSub (a b : Nat) : Nat := (a + (USIZE_MOD - b % USIZE_MOD)) % USIZE_MOD

/-- The state of `Ringu<N>` (src/lib.rs lines 14-36): backing buffer, the two
unbounded-until-wrap cursors, the mutability lock flag, and the diagnostic
read counter.  The spin function has no observable effect in the sequential
model and is omitted. -/
structure Ringu (N : Nat) where
  buf : List Nat
  read_idx : Nat
  write_idx : Nat
  mut_lock : Bool
  read_count : Nat
deriving DecidableEq, Repr

namespace Ringu

/-- `Ringu::default()` (src/lib.rs 39-48): zeroed buffer, both cursors `0`,
lock free, read counter `0`.  There is no validation of `N`. -/
def default (N : Nat) : Ringu N :=
  { buf := List.replicate N 0
    read_idx := 0
    write_idx := 0
    mut_lock := false
    read_count := 0 }

/-- `Ringu::new_with_spin(spin)` (src/lib.rs 51-60): identical state to
`default()`; the supplied spin function is not part of the observable state in
the sequential model. -/
def new_with_spin (N : Nat) : Ringu N :=
  default N

/-- Construction viewed as a fallible operation: a `none` result would model a
construction-time assertion or panic.  The source constructor `default`
(src/lib.rs 39-48) contains no check on `N` and no panic path, so this is
unconditionally `some`. -/
def tryDefault (N : Nat) : Option (Ringu N) :=
  some (default N)

/-- Fallible view of `new_with_spin` (src/lib.rs 51-60): like `tryDefault`,
the source has no check or panic path, so construction always succeeds. -/
def tryNewWithSpin (N : Nat) : Option (Ringu N) :=
  some (new_with_spin N)

/-- `lock_me` (src/lib.rs 62-68): spin until the compare-and-swap
`false → true` succeeds.  Sequentially the loop terminates with the flag set. -/
def lock_me (r : Ringu N) : Ringu N :=
  { r with mut_lock := true }

/-- `unlock_me` (src/lib.rs 70-72): a single compare-and-swap `true → false`
(note: not a retry loop in the source).  If the flag is `true` it becomes
`false`; if it is already `false` the swap fails and the flag stays `false`. -/
def unlock_me (r : Ringu N) : Ringu N :=
  if r.mut_lock then { r with mut_lock := false } else r

/-- `available()` (src/lib.rs 80-87): `write_idx.wrapping_sub(read_idx)`.
The source also asserts `avail <= N`; that assertion condition is the
separate predicate `availOk`. -/
def available (r : Ringu N) : Nat :=
  wrappingSub r.write_idx r.read_idx

/-- The condition of the `assert!(avail <= N, ...)` inside `available()`
(src/lib.rs 85). -/
def availOk (r : Ringu N) : Prop :=
  r.available ≤ N

/-- `full()` (src/lib.rs 90-92): `available() == N`. -/
def full (r : Ringu N) : Bool :=
  r.available == N

/-- `empty()` (src/lib.rs 95-97): `write_idx == read_idx`. -/
def empty (r : Ringu N) : Bool :=
  r.write_idx == r.read_idx

/-- `vacant()` (src/lib.rs 100-102): `N - available()`. -/
def vacant (r : Ringu N) : Nat :=
  N - r.available

/-- `lock_if_not_full` (src/lib.rs 104-112): fast-path full check outside the
lock; acquires the lock only when not full. -/
def lock_if_not_full (r : Ringu N) : Bool × Ringu N :=
  if !r.full then (true, r.lock_me) else (false, r)

/-- `lock_if_not_empty` (src/lib.rs 114-122): fast-path empty check outside
the lock; acquires the lock only when not empty. -/
def lock_if_not_empty (r : Ringu N) : Bool × Ringu N :=
  if !r.empty then (true, r.lock_me) else (false, r)

/-- `push_one(byte)` (src/lib.rs 126-137): returns the number of bytes pushed
(0 or 1) together with the successor state.  On success: `fetch_add(1)` on
`write_idx` reserves the pre-increment index, the byte is stored at the
masked index, and the lock is released. -/
def push_one (r : Ringu N) (byte : Nat) : Nat × Ringu N :=
  let p := r.lock_if_not_full
  if p.1 then
    let r1 := p.2
    let cur_write_idx := r1.write_idx
    let r2 : Ringu N := { r1 with write_idx := (r1.write_idx + 1) % USIZE_MOD }
    let r3 : Ringu N := { r2 with buf := r2.buf.set (cur_write_idx &&& (N - 1)) byte }
    (1, r3.unlock_me)
  else
    (0, p.2)

/-- `read_one()` (src/lib.rs 142-154): returns `(count, byte)` with the
successor state.  On success: the read counter and `read_idx` are
`fetch_add(1)`-ed, the byte at the masked pre-increment read index is
returned, and the lock is released.  On the empty fast path the result is
`(0, 0)`. -/
def read_one (r : Ringu N) : (Nat × Nat) × Ringu N :=
  let p := r.lock_if_not_empty
  if p.1 then
    let r1 : Ringu N := { p.2 with read_count := (p.2.read_count + 1) % USIZE_MOD }
    let cur_read_idx := r1.read_idx
    let r2 : Ringu N := { r1 with read_idx := (r1.read_idx + 1) % USIZE_MOD }
    let byte := r2.buf.getD (cur_read_idx &&& (N - 1)) 0
    ((1, byte), r2.unlock_me)
  else
    ((0, 0), p.2)

end Ringu

/-- One API call in a usage trace of the buffer. -/
inductive Op where
  | push (byte : Nat)
  | read
deriving DecidableEq, Repr

/-- A buffer state together with the log of successfully transferred bytes:
`pushed` collects the byte of every `push_one` call that returned `1`, in
call order; `readOut` collects the byte of every `read_one` call that
returned count `1`, in call order. -/
structure Trace (N : Nat) where
  ring : Ringu N
  pushed : List Nat
  readOut : List Nat
deriving DecidableEq, Repr

/-- Execute one call and extend the logs. -/
def traceStep (s : Trace N) : Op → Trace N
  | Op.push b =>
    let p := s.ring.push_one b
    { ring := p.2
      pushed := if p.1 = 1 then s.pushed ++ [b] else s.pushed
      readOut := s.readOut }
  | Op.read =>
    let p := s.ring.read_one
    { ring := p.2
      pushed := s.pushed
      readOut := if p.1.1 = 1 then s.readOut ++ [p.1.2] else s.readOut }

/-- Run a whole call sequence from a freshly constructed buffer. -/
def runTrace (N : Nat) (ops : List Op) : Trace N :=
  ops.foldl traceStep { ring := Ringu.default N, pushed := [], readOut := [] }

/-! ## Arithmetic helpers -/

theorem usize_mod_pos : 0 < USIZE_MOD :=
  Nat.two_pow_pos 64

/-- Wrapping subtraction recovers the distance added before reduction. -/
theorem wrappingSub_add_mod (b k : Nat) (hb : b < USIZE_MOD) :
    wrappingSub ((b + k) % USIZE_MOD) b = k % USIZE_MOD := by
  unfold wrappingSub
  rw [Nat.mod_eq_of_lt hb, Nat.mod_add_mod]
  have hstep : b + k + (USIZE_MOD - b) = k + USIZE_MOD := by omega
  rw [hstep, Nat.add_mod_right]

/-- A power-of-two capacity below the word size divides the word modulus. -/
theorem capacity_dvd_usize_mod {N m : Nat} (hN : N = 2 ^ m) (hm : m < 64) :
    N ∣ USIZE_MOD := by
  subst hN
  exact pow_dvd_pow 2 (Nat.le_of_lt hm)

theorem capacity_lt_usize_mod {N m : Nat} (hN : N = 2 ^ m) (hm : m < 64) :
    N < USIZE_MOD := by
  subst hN
  exact Nat.pow_lt_pow_of_lt (by norm_num) hm

/-- Reducing modulo the word size does not change residues modulo a
power-of-two capacity. -/
theorem mod_usize_add_mod_cap {M N a j : Nat} (h : N ∣ M) :
    (a % M + j) % N = (a + j) % N :=
  Nat.ModEq.add_right j (Nat.ModEq.of_dvd h (Nat.mod_modEq a M))

/-- Two in-window offsets from the same base occupy distinct slots. -/
theorem slot_ne {N a j len : Nat} (hj : j < len) (hlen : len < N) :
    (a + j) % N ≠ (a + len) % N := by
  intro h
  have h1 : j ≡ len [MOD N] := Nat.ModEq.add_left_cancel' a h
  have h2 : j % N = len % N := h1
  rw [Nat.mod_eq_of_lt (lt_trans hj hlen), Nat.mod_eq_of_lt hlen] at h2
  omega

/-- The masked index used by `push_one`/`read_one` is reduction mod `N`. -/
theorem mask_eq_mod {N m : Nat} (hN : N = 2 ^ m) (x : Nat) :
    x &&& (N - 1) = x % N := by
  subst hN
  exact Nat.and_pow_two_sub_one_eq_mod x m

theorem tail_getD (q : List Nat) (j : Nat) :
    q.tail.getD j 0 = q.getD (j + 1) 0 := by
  cases q <;> simp

/-! ## Single-operation characterisations -/

theorem push_one_of_full {N : Nat} (r : Ringu N) (b : Nat) (h : r.full = true) :
    r.push_one b = (0, r) := by
  simp [Ringu.push_one, Ringu.lock_if_not_full, h]

theorem push_one_of_not_full {N : Nat} (r : Ringu N) (b : Nat) (h : r.full = false) :
    r.push_one b =
      (1, { buf := r.buf.set (r.write_idx &&& (N - 1)) b
            read_idx := r.read_idx
            write_idx := (r.write_idx + 1) % USIZE_MOD
            mut_lock := false
            read_count := r.read_count }) := by
  simp [Ringu.push_one, Ringu.lock_if_not_full, Ringu.lock_me, Ringu.unlock_me, h]

theorem read_one_of_empty {N : Nat} (r : Ringu N) (h : r.empty = true) :
    r.read_one = ((0, 0), r) := by
  simp [Ringu.read_one, Ringu.lock_if_not_empty, h]

theorem read_one_of_not_empty {N : Nat} (r : Ringu N) (h : r.empty = false) :
    r.read_one =
      ((1, r.buf.getD (r.read_idx &&& (N - 1)) 0),
       { buf := r.buf
         read_idx := (r.read_idx + 1) % USIZE_MOD
         write_idx := r.write_idx
         mut_lock := false
         read_count := (r.read_count + 1) % USIZE_MOD }) := by
  simp [Ringu.read_one, Ringu.lock_if_not_empty, Ringu.lock_me, Ringu.unlock_me, h]

/-! ## The coupling invariant -/

/-- Coupling invariant between a buffer state and the abstract queue `q` of
bytes pushed but not yet read: machine cursors, queue length bounded by the
capacity, the write cursor ahead of the read cursor by exactly `q.length`
(mod `2 ^ 64`), and slot `j` of the unread window holding `q`'s `j`-th byte. -/
def RinguInv {N : Nat} (r : Ringu N) (q : List Nat) : Prop :=
  r.buf.length = N ∧
  r.read_idx < USIZE_MOD ∧
  r.write_idx < USIZE_MOD ∧
  r.mut_lock = false ∧
  q.length ≤ N ∧
  r.write_idx = (r.read_idx + q.length) % USIZE_MOD ∧
  ∀ j, j < q.length → r.buf.getD ((r.read_idx + j) % N) 0 = q.getD j 0

theorem available_of_inv {N m : Nat} (hN : N = 2 ^ m) (hm : m < 64)
    {r : Ringu N} {q : List Nat} (hInv : RinguInv r q) :
    r.available = q.length := by
  obtain ⟨-, hr, -, -, hlen, hcur, -⟩ := hInv
  rw [Ringu.available, hcur, wrappingSub_add_mod _ _ hr]
  exact Nat.mod_eq_of_lt (lt_of_le_of_lt hlen (capacity_lt_usize_mod hN hm))

theorem queue_ne_nil_of_not_empty {N : Nat} {r : Ringu N} {q : List Nat}
    (hInv : RinguInv r q) (h : r.empty = false) : q ≠ [] := by
  intro hq
  subst hq
  obtain ⟨-, hr, -, -, -, hcur, -⟩ := hInv
  rw [List.length_nil, Nat.add_zero, Nat.mod_eq_of_lt hr] at hcur
  rw [Ringu.empty, hcur] at h
  simp at h

theorem push_preserves_inv {N m : Nat} (hN : N = 2 ^ m) (hm : m < 64)
    {r : Ringu N} {q : List Nat} (hInv : RinguInv r q) (hfull : r.full = false)
    (b : Nat) :
    (r.push_one b).1 = 1 ∧ RinguInv (r.push_one b).2 (q ++ [b]) := by
  have hNpos : 0 < N := hN ▸ Nat.two_pow_pos m
  have hdvd := capacity_dvd_usize_mod hN hm
  have havail := available_of_inv hN hm hInv
  obtain ⟨hbuf, hr, hw, hl, hlen, hcur, hslots⟩ := hInv
  have hlt : q.length < N := by
    rw [Ringu.full, beq_eq_false_iff_ne] at hfull
    rw [havail] at hfull
    omega
  have hwSlot : r.write_idx &&& (N - 1) = (r.read_idx + q.length) % N := by
    rw [mask_eq_mod hN, hcur, Nat.mod_mod_of_dvd _ hdvd]
  rw [push_one_of_not_full r b hfull]
  refine ⟨rfl, ?_, hr, Nat.mod_lt _ usize_mod_pos, rfl, ?_, ?_, ?_⟩
  · simpa using hbuf
  · simpa using hlt
  · rw [hcur, Nat.mod_add_mod]
    simp [Nat.add_assoc]
  · intro j hj
    have hj1 : j < q.length + 1 := by simpa using hj
    have hidx : (r.read_idx + j) % N < N := Nat.mod_lt _ hNpos
    rcases Nat.lt_or_ge j q.length with hjlt | hjge
    · have hne : (r.read_idx + q.length) % N ≠ (r.read_idx + j) % N :=
        (slot_ne hjlt hlt).symm
      calc (r.buf.set (r.write_idx &&& (N - 1)) b).getD ((r.read_idx + j) % N) 0
          = r.buf.getD ((r.read_idx + j) % N) 0 := by
            rw [hwSlot]
            simp only [List.getD_eq_getElem?_getD]
            rw [List.getElem?_set_ne hne]
        _ = q.getD j 0 := hslots j hjlt
        _ = (q ++ [b]).getD j 0 := by
            simp only [List.getD_eq_getElem?_getD]
            rw [List.getElem?_append_left hjlt]
    · have hjeq : j = q.length := by omega
      subst hjeq
      have hsetidx : (r.read_idx + q.length) % N < r.buf.length := by
        rw [hbuf]; exact Nat.mod_lt _ hNpos
      calc (r.buf.set (r.write_idx &&& (N - 1)) b).getD ((r.read_idx + q.length) % N) 0
          = b := by
            rw [hwSlot]
            simp only [List.getD_eq_getElem?_getD]
            rw [List.getElem?_set_self hsetidx]
            rfl
        _ = (q ++ [b]).getD q.length 0 := by
            simp only [List.getD_eq_getElem?_getD]
            rw [List.getElem?_concat_length]
            rfl

theorem read_preserves_inv {N m : Nat} (hN : N = 2 ^ m) (hm : m < 64)
    {r : Ringu N} {q : List Nat} (hInv : RinguInv r q) (hemp : r.empty = false) :
    (r.read_one).1 = (1, q.getD 0 0) ∧ RinguInv (r.read_one).2 q.tail := by
  have hNpos : 0 < N := hN ▸ Nat.two_pow_pos m
  have hdvd := capacity_dvd_usize_mod hN hm
  have hqne : q ≠ [] := queue_ne_nil_of_not_empty hInv hemp
  obtain ⟨hbuf, hr, hw, hl, hlen, hcur, hslots⟩ := hInv
  have hq0 : 0 < q.length := List.length_pos.mpr hqne
  have hbyte : r.buf.getD (r.read_idx &&& (N - 1)) 0 = q.getD 0 0 := by
    rw [mask_eq_mod hN]
    have := hslots 0 hq0
    simpa using this
  rw [read_one_of_not_empty r hemp]
  refine ⟨by rw [hbyte], hbuf, Nat.mod_lt _ usize_mod_pos, hw, rfl, ?_, ?_, ?_⟩
  · have : q.tail.length = q.length - 1 := List.length_tail q
    omega
  · rw [Nat.mod_add_mod, hcur, List.length_tail]
    congr 1
    omega
  · intro j hj
    have hjq : j + 1 < q.length := by
      rw [List.length_tail] at hj
      omega
    have hidx : ((r.read_idx + 1) % USIZE_MOD + j) % N = (r.read_idx + (j + 1)) % N := by
      rw [mod_usize_add_mod_cap hdvd]
      congr 1
      omega
    rw [hidx, hslots (j + 1) hjq, tail_getD]

/-! ## The trace invariant -/

/-- Every successfully pushed byte is either already read out (in order) or
still queued in the buffer. -/
def TraceInv {N : Nat} (s : Trace N) : Prop :=
  ∃ q, RinguInv s.ring q ∧ s.pushed = s.readOut ++ q

theorem traceInv_init {N : Nat} :
    TraceInv ({ ring := Ringu.default N, pushed := [], readOut := [] } : Trace N) := by
  refine ⟨[], ⟨?_, ?_, ?_, rfl, ?_, ?_, ?_⟩, rfl⟩
  · simp [Ringu.default]
  · exact usize_mod_pos
  · exact usize_mod_pos
  · simp
  · simp [Ringu.default]
  · intro j hj
    simp at hj

theorem traceStep_preserves_inv {N m : Nat} (hN : N = 2 ^ m) (hm : m < 64)
    {s : Trace N} (h : TraceInv s) (op : Op) : TraceInv (traceStep s op) := by
  obtain ⟨q, hInv, hpr⟩ := h
  cases op with
  | push b =>
    by_cases hfull : s.ring.full = true
    · refine ⟨q, ?_, ?_⟩ <;>
        simp [traceStep, push_one_of_full s.ring b hfull, hInv, hpr]
    · rw [Bool.not_eq_true] at hfull
      obtain ⟨hcnt, hInv2⟩ := push_preserves_inv hN hm hInv hfull b
      refine ⟨q ++ [b], ?_, ?_⟩
      · simpa [traceStep] using hInv2
      · simp [traceStep, hcnt, hpr]
  | read =>
    by_cases hemp : s.ring.empty = true
    · refine ⟨q, ?_, ?_⟩ <;>
        simp [traceStep, read_one_of_empty s.ring hemp, hInv, hpr]
    · rw [Bool.not_eq_true] at hemp
      have hqne : q ≠ [] := queue_ne_nil_of_not_empty hInv hemp
      obtain ⟨hcnt, hInv2⟩ := read_preserves_inv hN hm hInv hemp
      refine ⟨q.tail, ?_, ?_⟩
      · simpa [traceStep] using hInv2
      · simp [traceStep, hcnt]
        cases q with
        | nil => exact absurd rfl hqne
        | cons q0 t => simp [hpr]

theorem foldl_traceStep_inv {N m : Nat} (hN : N = 2 ^ m) (hm : m < 64)
    (ops : List Op) :
    ∀ s : Trace N, TraceInv s → TraceInv (ops.foldl traceStep s) := by
  induction ops with
  | nil => intro s h; exact h
  | cons op rest ih =>
    intro s h
    exact ih _ (traceStep_preserves_inv hN hm h op)

theorem runTrace_inv {N m : Nat} (hN : N = 2 ^ m) (hm : m < 64)
    (ops : List Op) : TraceInv (runTrace N ops) :=
  foldl_traceStep_inv hN hm ops _ traceInv_init

/-! ## Claims -/

/-- C1: FIFO order.  For every finite call sequence on a freshly constructed
buffer with power-of-two capacity `N = 2 ^ m` (representable: `m < 64`), the
bytes returned by the successful reads, in order, are a prefix of the bytes
accepted by the successful pushes, in order: the i-th successful `read_one`
yields the byte of the i-th successful `push_one`. -/
theorem claim_C1_fifo_order {N m : Nat} (hN : N = 2 ^ m) (hm : m < 64)
    (ops : List Op) :
    (runTrace N ops).readOut <+: (runTrace N ops).pushed := by
  obtain ⟨q, -, hpr⟩ := runTrace_inv hN hm ops
  exact ⟨q, hpr.symm⟩

theorem claim_C1_fifo_order_witness :
    (runTrace 4 [Op.push 7, Op.push 9, Op.read, Op.read, Op.read]).readOut <+:
      (runTrace 4 [Op.push 7, Op.push 9, Op.read, Op.read, Op.read]).pushed :=
  claim_C1_fifo_order (m := 2) rfl (by decide) _

/-- C2: capacity bound.  In every state reachable from a fresh buffer of
power-of-two capacity `N`: `available ≤ N`, `full` holds exactly when
`available = N`, and `vacant + available = N`. -/
theorem claim_C2_capacity_bound {N m : Nat} (hN : N = 2 ^ m) (hm : m < 64)
    (ops : List Op) :
    (runTrace N ops).ring.available ≤ N ∧
    ((runTrace N ops).ring.full = true ↔ (runTrace N ops).ring.available = N) ∧
    (runTrace N ops).ring.vacant + (runTrace N ops).ring.available = N := by
  obtain ⟨q, hInv, -⟩ := runTrace_inv hN hm ops
  have ha := available_of_inv hN hm hInv
  have hle : (runTrace N ops).ring.available ≤ N := by
    rw [ha]; exact hInv.2.2.2.2.1
  refine ⟨hle, ?_, ?_⟩
  · simp [Ringu.full]
  · rw [Ringu.vacant]; omega

theorem claim_C2_capacity_bound_witness :
    (runTrace 4 [Op.push 1]).ring.available ≤ 4 ∧
    ((runTrace 4 [Op.push 1]).ring.full = true ↔
      (runTrace 4 [Op.push 1]).ring.available = 4) ∧
    (runTrace 4 [Op.push 1]).ring.vacant + (runTrace 4 [Op.push 1]).ring.available = 4 :=
  claim_C2_capacity_bound (m := 2) rfl (by decide) _

/-- C3: conservation.  After any finite call sequence, the number of
successful pushes equals the number of successful reads plus `available()`;
once drained (`available = 0`) the two counts coincide, so no byte is lost or
duplicated. -/
theorem claim_C3_conservation {N m : Nat} (hN : N = 2 ^ m) (hm : m < 64)
    (ops : List Op) :
    (runTrace N ops).pushed.length =
      (runTrace N ops).readOut.length + (runTrace N ops).ring.available ∧
    ((runTrace N ops).ring.available = 0 →
      (runTrace N ops).pushed.length = (runTrace N ops).readOut.length) := by
  obtain ⟨q, hInv, hpr⟩ := runTrace_inv hN hm ops
  have ha := available_of_inv hN hm hInv
  have h1 : (runTrace N ops).pushed.length =
      (runTrace N ops).readOut.length + (runTrace N ops).ring.available := by
    rw [hpr, ha, List.length_append]
  exact ⟨h1, fun h0 => by omega⟩

theorem claim_C3_conservation_witness :
    (runTrace 4 [Op.push 1, Op.push 2, Op.read]).pushed.length =
      (runTrace 4 [Op.push 1, Op.push 2, Op.read]).readOut.length +
        (runTrace 4 [Op.push 1, Op.push 2, Op.read]).ring.available :=
  (claim_C3_conservation (m := 2) rfl (by decide) _).1

/-- C4: pushing to a full buffer is a no-op returning 0: the state — storage,
both cursors, the lock flag — is unchanged, and in particular the lock is
never taken (the fast-path check rejects before `lock_me`). -/
theorem claim_C4_push_full_noop {N : Nat} (r : Ringu N) (b : Nat)
    (h : r.full = true) : r.push_one b = (0, r) :=
  push_one_of_full r b h

theorem claim_C4_push_full_noop_witness :
    Ringu.push_one
      ({ buf := [5, 6], read_idx := 0, write_idx := 2,
         mut_lock := false, read_count := 0 } : Ringu 2) 3 =
      (0, ({ buf := [5, 6], read_idx := 0, write_idx := 2,
             mut_lock := false, read_count := 0 } : Ringu 2)) :=
  claim_C4_push_full_noop _ 3 (by decide)

/-- C5: the `read_one` contract.  On an empty buffer (`write_idx = read_idx`)
it returns count 0 with the state — storage, cursors, lock — unchanged; on a
non-empty buffer it returns count 1 together with the byte at
`buf[old_read_idx &&& (N - 1)]`, and advances `read_idx` by exactly one
(wrapping). -/
theorem claim_C5_read_contract {N : Nat} (r : Ringu N) :
    (r.empty = true → r.read_one = ((0, 0), r)) ∧
    (r.empty = false →
      (r.read_one).1.1 = 1 ∧
      (r.read_one).1.2 = r.buf.getD (r.read_idx &&& (N - 1)) 0 ∧
      ((r.read_one).2).read_idx = (r.read_idx + 1) % USIZE_MOD) := by
  constructor
  · intro h
    exact read_one_of_empty r h
  · intro h
    rw [read_one_of_not_empty r h]
    exact ⟨rfl, rfl, rfl⟩

theorem claim_C5_read_contract_witness :
    Ringu.read_one (Ringu.default 2) = ((0, 0), Ringu.default 2) ∧
    (Ringu.read_one ({ buf := [5, 6], read_idx := 0, write_idx := 1,
                       mut_lock := false, read_count := 0 } : Ringu 2)).1.1 = 1 :=
  ⟨(claim_C5_read_contract (Ringu.default 2)).1 (by decide),
   ((claim_C5_read_contract ({ buf := [5, 6], read_idx := 0, write_idx := 1,
                               mut_lock := false, read_count := 0 } : Ringu 2)).2
      (by decide)).1⟩

/-- C6 (counterexample): `N = 3` is not a power of two, yet construction via
`default` and `new_with_spin` succeeds — the source constructors contain no
power-of-two check and no panic path, so they do not fail fast. -/
theorem claim_C6_cex :
    (¬ ∃ k : Nat, 3 = 2 ^ k) ∧
    Ringu.tryDefault 3 = some (Ringu.default 3) ∧
    Ringu.tryNewWithSpin 3 = some (Ringu.new_with_spin 3) := by
  refine ⟨?_, rfl, rfl⟩
  rintro ⟨k, hk⟩
  rcases k with _ | _ | k
  · norm_num at hk
  · norm_num at hk
  · have h1 : 1 ≤ 2 ^ k := Nat.one_le_two_pow
    have h2 : 2 ^ (k + 2) = 2 ^ k * 4 := by ring
    rw [h2] at hk
    omega

/-- C6 (amended): construction performs no capacity validation: for every
`N`, including non-powers of two, `default` and `new_with_spin` succeed
(never signal an assertion or panic) and return a buffer with both cursors 0
and the lock free; the power-of-two requirement is an unchecked
precondition. -/
theorem claim_C6_construction_unchecked (N : Nat) :
    Ringu.tryDefault N = some (Ringu.default N) ∧
    Ringu.tryNewWithSpin N = some (Ringu.new_with_spin N) ∧
    (Ringu.default N).read_idx = 0 ∧
    (Ringu.default N).write_idx = 0 ∧
    (Ringu.default N).mut_lock = false :=
  ⟨rfl, rfl, rfl, rfl, rfl⟩

/-- C7: no panic on valid use.  In every state reachable from a fresh buffer
of power-of-two capacity by `push_one`/`read_one` calls, the wrapping cursor
difference is at most `N`, so the `assert!(avail <= N)` inside `available()`
(also reached via `full`, `vacant`, `push_one`, `read_one`) never fires. -/
theorem claim_C7_no_assert_failure {N m : Nat} (hN : N = 2 ^ m) (hm : m < 64)
    (ops : List Op) : ((runTrace N ops).ring).availOk := by
  obtain ⟨q, hInv, -⟩ := runTrace_inv hN hm ops
  show (runTrace N ops).ring.available ≤ N
  rw [available_of_inv hN hm hInv]
  exact hInv.2.2.2.2.1

theorem claim_C7_no_assert_failure_witness :
    ((runTrace 4 [Op.push 1, Op.push 2, Op.read]).ring).availOk :=
  claim_C7_no_assert_failure (m := 2) rfl (by decide) _

/-- C8: `available()` is wrapping (mod `2 ^ 64`) subtraction on the raw
counters, never mod-`N` reduction of the cursors: for every machine value
`rc` of the read cursor and every `k ≤ N`, if the write cursor holds
`(rc + k) % 2 ^ 64` — even when that value has numerically wrapped below
`rc` — then `available()` returns exactly `k`. -/
theorem claim_C8_available_wrapping {N : Nat} (buf : List Nat) (lock : Bool)
    (rcount rc k : Nat) (hr : rc < USIZE_MOD) (hk : k ≤ N)
    (hN : N < USIZE_MOD) :
    Ringu.available
      ({ buf := buf, read_idx := rc, write_idx := (rc + k) % USIZE_MOD,
         mut_lock := lock, read_count := rcount } : Ringu N) = k := by
  show wrappingSub ((rc + k) % USIZE_MOD) rc = k
  rw [wrappingSub_add_mod _ _ hr]
  exact Nat.mod_eq_of_lt (lt_of_le_of_lt hk hN)

theorem claim_C8_available_wrapping_witness :
    Ringu.available
      ({ buf := [], read_idx := 18446744073709551615,
         write_idx := (18446744073709551615 + 3) % USIZE_MOD,
         mut_lock := false, read_count := 0 } : Ringu 4) = 3 :=
  claim_C8_available_wrapping [] false 0 18446744073709551615 3
    (by decide) (by decide) (by decide)

/-- C9: lock release never silently leaves the lock held.  `unlock_me`
(a compare-and-swap `true → false`) leaves the flag `false` from any starting
value, and every completed `push_one` or `read_one` call (started, as always
in sequential use, with the lock free) ends with the flag `false`. -/
theorem claim_C9_unlock_releases {N : Nat} (r : Ringu N) (b : Nat) :
    (r.unlock_me).mut_lock = false ∧
    (r.mut_lock = false →
      ((r.push_one b).2).mut_lock = false ∧
      ((r.read_one).2).mut_lock = false) := by
  constructor
  · rw [Ringu.unlock_me]
    cases h : r.mut_lock with
    | false => simp [h]
    | true => simp
  · intro hl
    constructor
    · by_cases hfull : r.full = true
      · rw [push_one_of_full r b hfull]
        exact hl
      · rw [Bool.not_eq_true] at hfull
        rw [push_one_of_not_full r b hfull]
    · by_cases hemp : r.empty = true
      · rw [read_one_of_empty r hemp]
        exact hl
      · rw [Bool.not_eq_true] at hemp
        rw [read_one_of_not_empty r hemp]

theorem claim_C9_unlock_releases_witness :
    ((Ringu.default 2).unlock_me).mut_lock = false ∧
    (((Ringu.default 2).push_one 5).2).mut_lock = false :=
  ⟨(claim_C9_unlock_releases (Ringu.default 2) 5).1,
   ((claim_C9_unlock_releases (Ringu.default 2) 5).2 rfl).1⟩

/-- C10: on an empty buffer (`write_idx = read_idx`), `read_one` returns
exactly the pair `(0, 0)` — the byte component is the concrete value `0`,
not an arbitrary byte. -/
theorem claim_C10_read_empty_zero {N : Nat} (r : Ringu N)
    (h : r.empty = true) : (r.read_one).1 = (0, 0) := by
  rw [read_one_of_empty r h]

theorem claim_C10_read_empty_zero_witness :
    (Ringu.read_one (Ringu.default 4)).1 = (0, 0) :=
  claim_C10_read_empty_zero (Ringu.default 4) (by decide)
